import Mathlib

/-!
Verification of the pyincus model layer.

Shallow embedding of the repository sources:
  src/pyincus/models/fields.py   (ModelField, FilterOperation, FilterQuery)
  src/pyincus/models/general.py  (an older, divergent variant of the same)
  src/pyincus/models/base.py     (BaseIncusMeta.__new__ and _init)

Python scalars are modelled by PyVal; the Unset sentinel from
pyincus.config (not under src/) is a dedicated constructor.  repr of a
plain string is modelled as the string wrapped in single quotes, which
is exact for strings that contain no quote or escape characters (the
only strings the development evaluates on).
-/

/-- Single quote character, built from its code point. -/
def squote : String := String.singleton (Char.ofNat 39)

/-- The underscore character, built from its code point. -/
def underscoreChar : Char := Char.ofNat 95

/-- Python name.startswith of a single underscore: the first character
is an underscore. -/
def startsWithUnderscore (s : String) : Bool :=
  match s.data with
  | [] => false
  | c :: _ => c = underscoreChar

deriving instance DecidableEq for Except

/-- Python scalar values that appear as field values and filter operands. -/
inductive PyVal where
  | str (s : String)
  | int (n : Int)
deriving DecidableEq

/-- Python str() of a scalar. -/
def pyStr : PyVal → String
  | .str s => s
  | .int n => toString n

/-- Python repr() of a scalar: strings are quoted, integers are not. -/
def pyRepr : PyVal → String
  | .str s => squote ++ s ++ squote
  | .int n => toString n

/-- fields.py FilterOperation: Enum of the filter operations. -/
inductive FilterOperation where
  | NOT
  | EQUALS
  | AND
  | OR
  | NOT_EQUALS
deriving DecidableEq

/-- FilterOperation member values; __str__ returns self.value. -/
def FilterOperation.value : FilterOperation → String
  | .NOT => "not"
  | .EQUALS => "eq"
  | .AND => "and"
  | .OR => "or"
  | .NOT_EQUALS => "ne"

/-- Python object graph reachable from a fields.py FilterQuery: the Unset
sentinel, scalars, ModelField instances (owning class name and field
name), and FilterQuery nodes (first_value, operation, second_value). -/
inductive FQVal where
  | unset
  | scalar (v : PyVal)
  | field (cls fieldName : String)
  | query (first : FQVal) (op : FilterOperation) (second : FQVal)
deriving DecidableEq

/-- fields.py ModelField.__repr__: the owning class name, a dot, the
field name. -/
def ModelField.reprStr (cls fieldName : String) : String :=
  cls ++ "." ++ fieldName

/-- str() of the Unset sentinel object. Modelled from the spec: the
config module that defines Unset is not under src/. -/
def unsetStr : String := "Unset"

/-- fields.py FilterQuery._repr_mapping: operation to debug symbol.  The
NOT operation has no entry (a lookup with it raises KeyError), hence
Option. -/
def reprMapping : FilterOperation → Option String
  | .EQUALS => some "=="
  | .AND => some "and"
  | .OR => some "or"
  | .NOT_EQUALS => some "!="
  | .NOT => none

/-- fields.py FilterQuery.__init__: raises PyIncusException when
(second_value is Unset) xor (operation == NOT); otherwise stores the
three components unchanged.  Python xor of Props is modelled as the
negation of their equivalence. -/
def FilterQuery.init (first : FQVal) (op : FilterOperation)
    (second : FQVal) : Except String FQVal :=
  if ¬(second = FQVal.unset ↔ op = FilterOperation.NOT) then
    Except.error
      ("Second value must always be set if operation " ++
       String.singleton (Char.ofNat 39) ++ "isn" ++ squote ++ "t" ++
       " and never be set if operation is " ++ squote ++ "not" ++ squote)
  else
    Except.ok (FQVal.query first op second)

/-- repr() over the fields.py object graph.  FilterQuery.__repr__:
when second_value is Unset the result is "not " plus repr of
first_value, otherwise repr(first), the _repr_mapping symbol and
repr(second), space separated; none models the KeyError raised when the
operation is absent from _repr_mapping. -/
def fqRepr : FQVal → Option String
  | .unset => some unsetStr
  | .scalar v => some (pyRepr v)
  | .field c n => some (ModelField.reprStr c n)
  | .query first _ .unset =>
    match fqRepr first with
    | some r => some ("not " ++ r)
    | none => none
  | .query first op second =>
    match fqRepr first, reprMapping op, fqRepr second with
    | some rf, some sym, some rs => some (rf ++ " " ++ sym ++ " " ++ rs)
    | _, _, _ => none

/-- str() over the fields.py object graph.  ModelField.__str__ is the
bare field name.  FilterQuery.__str__: when second_value is Unset the
result is "not " plus str(first_value); otherwise str(first), the
operation value and then str(second) when second is itself a
FilterQuery, else repr(second). -/
def fqStr : FQVal → String
  | .unset => unsetStr
  | .scalar v => pyStr v
  | .field _ n => n
  | .query first op second =>
    match second with
    | .unset => "not " ++ fqStr first
    | .query f o s =>
      fqStr first ++ " " ++ op.value ++ " " ++ fqStr (FQVal.query f o s)
    | .scalar v => fqStr first ++ " " ++ op.value ++ " " ++ pyRepr v
    | .field c n =>
      fqStr first ++ " " ++ op.value ++ " " ++ ModelField.reprStr c n

/-- fields.py FilterQuery.__eq__: equality of the two str() renderings. -/
def fqEq (p q : FQVal) : Bool :=
  fqStr p = fqStr q

/-- Hash stand-in for Python str hash (opaque at runtime): any fixed
function works for the claims, which only concern how composite hashes
are derived. -/
def strHash (s : String) : Nat :=
  s.foldl (fun h c => h * 31 + c.toNat) 7

/-- Hash stand-in for Python scalar hash. -/
def pyValHash : PyVal → Nat
  | .str s => strHash s
  | .int n => n.natAbs

/-- hash() over the fields.py object graph.  ModelField.__hash__ is
hash(self.field_name); FilterQuery.__hash__ is hash(self.first_value). -/
def fqHash : FQVal → Nat
  | .unset => 0
  | .scalar v => pyValHash v
  | .field _ n => strHash n
  | .query first _ _ => fqHash first

/-- fields.py ModelField.__eq__: builds FilterQuery(self, EQUALS, other). -/
def ModelField.eq (cls fieldName : String) (other : FQVal) :
    Except String FQVal :=
  FilterQuery.init (FQVal.field cls fieldName) FilterOperation.EQUALS other

/-- fields.py ModelField.__ne__: builds FilterQuery(self, NOT_EQUALS,
other). -/
def ModelField.ne (cls fieldName : String) (other : FQVal) :
    Except String FQVal :=
  FilterQuery.init (FQVal.field cls fieldName) FilterOperation.NOT_EQUALS
    other

/-- fields.py FilterQuery.__and__: FilterQuery(self, AND, other). -/
def FilterQuery.and (self other : FQVal) : Except String FQVal :=
  FilterQuery.init self FilterOperation.AND other

/-- fields.py FilterQuery.__or__: FilterQuery(self, OR, other). -/
def FilterQuery.or (self other : FQVal) : Except String FQVal :=
  FilterQuery.init self FilterOperation.OR other

/-- fields.py FilterQuery.__invert__: FilterQuery(self, NOT), the second
value defaulting to Unset. -/
def FilterQuery.invert (self : FQVal) : Except String FQVal :=
  FilterQuery.init self FilterOperation.NOT FQVal.unset

/-- Object graph of the general.py variant.  Its ModelField operators
store self.field_name — a plain string — as first_value, so no
dedicated field constructor is needed. -/
inductive GVal where
  | unset
  | scalar (v : PyVal)
  | query (first : GVal) (op : FilterOperation) (second : GVal)
deriving DecidableEq

/-- general.py FilterQuery.__init__: raises PyIncusException only when
second_value is Unset and the operation is not NOT; in every other case
(including a concrete second value together with NOT) it stores the
three components unchanged. -/
def General.mkFilterQuery (first : GVal) (op : FilterOperation)
    (second : GVal) : Except String GVal :=
  if second = GVal.unset ∧ op ≠ FilterOperation.NOT then
    Except.error
      ("Second value must always be set if operation " ++
       String.singleton (Char.ofNat 39) ++ "isn" ++ squote ++ "t" ++
       squote ++ "not" ++ squote)
  else
    Except.ok (GVal.query first op second)

/-- repr() over the general.py object graph.  general.py
FilterQuery.__repr__: when second_value is Unset it renders "not " plus
repr of second_value (the Unset object itself, as written in the
source); otherwise repr is mapped over first_value, the _repr_mapping
symbol string, and second_value — so the symbol is itself quoted. -/
def gRepr : GVal → Option String
  | .unset => some unsetStr
  | .scalar v => some (pyRepr v)
  | .query _ _ .unset => some ("not " ++ unsetStr)
  | .query first op second =>
    match gRepr first, reprMapping op, gRepr second with
    | some rf, some sym, some rs =>
      some (rf ++ " " ++ pyRepr (PyVal.str sym) ++ " " ++ rs)
    | _, _, _ => none

/-- str() over the general.py object graph.  general.py
FilterQuery.__str__: when second_value is Unset it renders "not " plus
repr of first_value; otherwise repr is mapped over first_value, the
operation value string and second_value — quoting the field-name string
and the operation token. -/
def gStr : GVal → Option String
  | .unset => some unsetStr
  | .scalar v => some (pyStr v)
  | .query first op second =>
    match second with
    | .unset =>
      match gRepr first with
      | some r => some ("not " ++ r)
      | none => none
    | _ =>
      match gRepr first, gRepr second with
      | some rf, some rs =>
        some (rf ++ " " ++ pyRepr (PyVal.str op.value) ++ " " ++ rs)
      | _, _ => none

/-- general.py ModelField.__eq__: FilterQuery(self.field_name, EQUALS,
other) with the bare field-name string as first value. -/
def General.modelFieldEq (fieldName : String) (other : GVal) :
    Except String GVal :=
  General.mkFilterQuery (GVal.scalar (PyVal.str fieldName))
    FilterOperation.EQUALS other

/-- Python objects stored in a class body or on an instance: the Unset
sentinel, plain scalar values, callables or properties (identified by
name), and ModelField instances (owning class name and field name). -/
inductive PyObj where
  | unset
  | scalar (v : PyVal)
  | callableObj (name : String)
  | fieldDesc (cls fieldName : String)
deriving DecidableEq

/-- An insertion-ordered Python dict with string keys, as an
association list. -/
abbrev Dict : Type := List (String × PyObj)

/-- dict[k] lookup (first matching entry; Python dicts are key-unique). -/
def dictGet : Dict → String → Option PyObj
  | [], _ => none
  | p :: rest, k => if p.1 = k then some p.2 else dictGet rest k

/-- `k in d` membership test. -/
def dictContains : Dict → String → Bool
  | [], _ => false
  | p :: rest, k => p.1 = k ∨ dictContains rest k

/-- dict insertion: update the existing entry in place, else append.
Matches Python dict update on key-unique lists. -/
def dictInsert : Dict → String → PyObj → Dict
  | [], k, v => [(k, v)]
  | p :: rest, k, v =>
    if p.1 = k then (k, v) :: rest else p :: dictInsert rest k v

/-- dict.setdefault: append the pair only when the key is absent. -/
def dictSetdefault (d : Dict) (k : String) (v : PyObj) : Dict :=
  if dictContains d k then d else d ++ [(k, v)]

/-- Python d1 | d2: keys of d1 in order with values from d2 winning,
then the new keys of d2 in order. -/
def dictMerge (d1 d2 : Dict) : Dict :=
  d2.foldl (fun acc p => dictInsert acc p.1 p.2) d1

/-- dict(pairs): left-to-right insertion into an empty dict, so a later
pair with the same key wins. -/
def dictOfList (l : List (String × PyObj)) : Dict :=
  dictMerge [] l

/-- The keys of an association list are pairwise distinct (always true
of lists denoting Python dicts). -/
def keysNodup (d : Dict) : Prop :=
  (d.map Prod.fst).Nodup

instance (d : Dict) : Decidable (keysNodup d) :=
  inferInstanceAs (Decidable ((d.map Prod.fst).Nodup))

/-- A declared class body as BaseIncusMeta.__new__ receives it: the
type name, the user attributes of the body in declaration order
(attrs), and the keys of its __annotations__ dict in order (annots).
The dunder entries Python adds to vars(cls) all start with an
underscore and land among the secret attributes, so carrying only the
user attributes is faithful for the constructed dicts; bases are passed
through to type() unchanged and are not modelled. -/
structure ClassBody where
  name : String
  attrs : List (String × PyObj)
  annots : List String

/-- The result of BaseIncusMeta.__new__: the class __dict__ as built
from secret attributes, methods and model fields, plus the
_model_fields default mapping. -/
structure IncusModelClass where
  name : String
  classDict : Dict
  modelFields : Dict

/-- In BaseIncusMeta.__new__ the ModelField owning class argument is
cls — which is the metaclass itself, BaseIncusMeta. -/
def metaclassName : String := "BaseIncusMeta"

/-- True of values that are callable or a property. -/
def isCallableOrProp : PyObj → Bool
  | .callableObj _ => true
  | _ => false

/-- The classification loop of BaseIncusMeta.__new__ over attrs.items():
callables and properties are appended to methods, underscore-prefixed
names to secret attributes, and every other item is inserted into
new_class_model_fields. -/
def classifyLoop : List (String × PyObj) → Dict → List (String × PyObj) →
    List (String × PyObj) → Dict × List (String × PyObj) × List (String × PyObj)
  | [], ncmf, methods, secrets => (ncmf, methods, secrets)
  | item :: rest, ncmf, methods, secrets =>
    if isCallableOrProp item.2 then
      classifyLoop rest ncmf (methods ++ [item]) secrets
    else if startsWithUnderscore item.1 then
      classifyLoop rest ncmf methods (secrets ++ [item])
    else
      classifyLoop rest (dictInsert ncmf item.1 item.2) methods secrets

/-- The annotations loop of BaseIncusMeta.__new__: underscore-prefixed
annotated names are skipped; every other annotated name gets a
ModelField bound to the metaclass appended to model_fields and a
setdefault of Unset in new_class_model_fields. -/
def annotLoop : List String → List (String × PyObj) → Dict →
    List (String × PyObj) × Dict
  | [], fields, ncmf => (fields, ncmf)
  | a :: rest, fields, ncmf =>
    if startsWithUnderscore a then
      annotLoop rest fields ncmf
    else
      annotLoop rest (fields ++ [(a, PyObj.fieldDesc metaclassName a)])
        (dictSetdefault ncmf a PyObj.unset)

/-- BaseIncusMeta.__new__: classify the body attributes, process the
annotations, and build the new class whose __dict__ is
dict((*secret_attributes, *methods, *model_fields)) and whose
_model_fields is the accumulated default mapping. -/
def buildIncusModel (body : ClassBody) : IncusModelClass :=
  let c := classifyLoop body.attrs [] [] []
  let a := annotLoop body.annots [] c.1
  { name := body.name
    classDict := dictOfList (c.2.2 ++ c.2.1 ++ a.1)
    modelFields := a.2 }

/-- repr() of a PyObj; only ModelField instances are rendered by the
claims (fields.py ModelField.__repr__). -/
def objRepr : PyObj → String
  | .unset => unsetStr
  | .scalar v => pyRepr v
  | .callableObj n => n
  | .fieldDesc c n => ModelField.reprStr c n

/-- Outcome of a successful BaseIncusMeta._init call: the setattr calls
performed on the instance, in order, and the merged keyword mapping
passed to __post_init__. -/
structure InitResult where
  assigned : List (String × PyObj)
  postInitKwargs : Dict
deriving DecidableEq

/-- The field loop of BaseIncusMeta._init over the merged kwargs: keys
not in _model_fields are skipped; an Unset value records the key as
missing; a concrete value is assigned onto the instance only while no
missing field has been recorded. -/
def initLoop : List (String × PyObj) → Dict → List String →
    List (String × PyObj) → List String × List (String × PyObj)
  | [], _, unsets, assigned => (unsets, assigned)
  | kv :: rest, mf, unsets, assigned =>
    if dictContains mf kv.1 = false then
      initLoop rest mf unsets assigned
    else if kv.2 = PyObj.unset then
      initLoop rest mf (unsets ++ [kv.1]) assigned
    else if unsets.isEmpty then
      initLoop rest mf unsets (assigned ++ [kv])
    else
      initLoop rest mf unsets assigned

/-- The PyIncusException message of _init, listing every missing field
the way Python renders a list of strings. -/
def missingMsg (unsets : List String) : String :=
  "The required fields [" ++
    String.intercalate ", " (unsets.map (fun s => squote ++ s ++ squote)) ++
    "] are missing."

/-- BaseIncusMeta._init: merge the supplied kwargs over _model_fields,
run the field loop, raise with the full missing list if any field is
still Unset, and otherwise call __post_init__ with the merged kwargs.
An error result means __post_init__ is never reached on that call. -/
def modelInit (mf kwargs : Dict) : Except (List String) InitResult :=
  let merged := dictMerge mf kwargs
  let r := initLoop merged mf [] []
  if r.1.isEmpty then
    Except.ok { assigned := r.2, postInitKwargs := merged }
  else
    Except.error r.1

/-- String append is associative (helper for rendering lemmas). -/
theorem strAppendAssoc (a b c : String) : a ++ b ++ c = a ++ (b ++ c) :=
  String.append_assoc a b c

theorem dictGet_insert (d : Dict) (k : String) (v : PyObj) (k' : String) :
    dictGet (dictInsert d k v) k' = if k' = k then some v else dictGet d k' := by
  induction d with
  | nil =>
    by_cases h : k' = k
    · subst h
      simp [dictInsert, dictGet]
    · simp [dictInsert, dictGet, h, Ne.symm h]
  | cons p rest ih =>
    by_cases hp : p.1 = k
    · by_cases h : k' = k
      · subst h
        simp [dictInsert, dictGet, hp]
      · simp [dictInsert, dictGet, hp, h, Ne.symm h]
    · simp only [dictInsert, hp, if_false, dictGet]
      by_cases hpk : p.1 = k'
      · have hne : ¬ k' = k := fun hh => hp (hpk.trans hh)
        simp [hpk, hne]
      · simp [hpk, ih]

theorem dictGet_mem {d : Dict} {k : String} {v : PyObj}
    (h : dictGet d k = some v) : (k, v) ∈ d := by
  induction d with
  | nil => simp [dictGet] at h
  | cons p rest ih =>
    simp only [dictGet] at h
    by_cases hp : p.1 = k
    · rw [if_pos hp, Option.some_inj] at h
      rw [List.mem_cons]
      left
      rw [Prod.ext_iff]
      exact ⟨hp.symm, h.symm⟩
    · rw [if_neg hp] at h
      exact List.mem_cons_of_mem _ (ih h)

theorem dictGet_eq_none_iff {d : Dict} {k : String} :
    dictGet d k = none ↔ ∀ p ∈ d, p.1 ≠ k := by
  induction d with
  | nil => simp [dictGet]
  | cons p rest ih =>
    by_cases hp : p.1 = k <;> simp [dictGet, hp, ih]

theorem dictContains_eq_false_iff {d : Dict} {k : String} :
    dictContains d k = false ↔ dictGet d k = none := by
  induction d with
  | nil => simp [dictContains, dictGet]
  | cons p rest ih =>
    by_cases hp : p.1 = k <;> simp [dictContains, dictGet, hp, ih]

theorem dictContains_of_get {d : Dict} {k : String} {v : PyObj}
    (h : dictGet d k = some v) : dictContains d k = true := by
  by_contra hc
  rw [Bool.not_eq_true, dictContains_eq_false_iff] at hc
  rw [h] at hc
  exact Option.noConfusion hc

theorem dictMerge_nil (d1 : Dict) : dictMerge d1 [] = d1 := rfl

theorem dictMerge_cons (d1 : Dict) (p : String × PyObj) (d2 : Dict) :
    dictMerge d1 (p :: d2) = dictMerge (dictInsert d1 p.1 p.2) d2 := rfl

theorem dictGet_merge_of_absent {d2 : Dict} {k : String}
    (h : ∀ p ∈ d2, p.1 ≠ k) (d1 : Dict) :
    dictGet (dictMerge d1 d2) k = dictGet d1 k := by
  induction d2 generalizing d1 with
  | nil => rfl
  | cons p rest ih =>
    rw [dictMerge_cons, ih (fun q hq => h q (List.mem_cons_of_mem p hq))]
    rw [dictGet_insert]
    have hp : p.1 ≠ k := h p (List.mem_cons_self p rest)
    simp [Ne.symm hp]

theorem dictGet_merge_of_get {d2 : Dict} {k : String} {v : PyObj}
    (hnd : keysNodup d2) (h : dictGet d2 k = some v) (d1 : Dict) :
    dictGet (dictMerge d1 d2) k = some v := by
  induction d2 generalizing d1 with
  | nil => simp [dictGet] at h
  | cons p rest ih =>
    simp only [dictGet] at h
    unfold keysNodup at hnd
    simp only [List.map_cons, List.nodup_cons] at hnd
    by_cases hp : p.1 = k
    · simp only [hp, if_true, Option.some.injEq] at h
      subst h
      rw [dictMerge_cons]
      have habs : ∀ q ∈ rest, q.1 ≠ k := by
        intro q hq hqk
        exact hnd.1 (by
          rw [hp, ← hqk]
          exact List.mem_map_of_mem Prod.fst hq)
      rw [dictGet_merge_of_absent habs]
      rw [dictGet_insert, hp]
      simp
    · simp only [hp, if_false] at h
      rw [dictMerge_cons]
      exact ih hnd.2 h _

theorem dictGet_append_single {d : Dict} {a n : String} {v : PyObj}
    (h : a ≠ n) : dictGet (d ++ [(a, v)]) n = dictGet d n := by
  induction d with
  | nil => simp [dictGet, h]
  | cons p rest ih =>
    by_cases hp : p.1 = n <;> simp [dictGet, hp, ih]

theorem dictGet_setdefault_of_ne {d : Dict} {a n : String} {v : PyObj}
    (h : a ≠ n) : dictGet (dictSetdefault d a v) n = dictGet d n := by
  unfold dictSetdefault
  by_cases hc : dictContains d a <;> simp [hc, dictGet_append_single h]

theorem dictGet_filter_of_true {d : Dict} {P : String → Bool} {k : String}
    (h : P k = true) :
    dictGet (d.filter (fun kv => P kv.1)) k = dictGet d k := by
  induction d with
  | nil => rfl
  | cons p rest ih =>
    by_cases hp : p.1 = k
    · have hPp : P p.1 = true := by
        rw [hp]
        exact h
      simp [List.filter_cons, hPp, dictGet, hp, ih, h]
    · by_cases hP : P p.1 = true
      · simp [List.filter_cons, hP, dictGet, hp, ih]
      · simp [List.filter_cons, hP, dictGet, hp, ih]

theorem dictGet_filter_of_false {d : Dict} {P : String → Bool} {k : String}
    (h : P k = false) :
    dictGet (d.filter (fun kv => P kv.1)) k = none := by
  induction d with
  | nil => rfl
  | cons p rest ih =>
    by_cases hp : p.1 = k
    · have hPp : P p.1 = false := by
        rw [hp]
        exact h
      simp [List.filter_cons, hPp, dictGet, hp, ih, h]
    · by_cases hP : P p.1 = true
      · simp [List.filter_cons, hP, dictGet, hp, ih]
      · simp [List.filter_cons, hP, dictGet, hp, ih]

theorem initLoop_ne_nil {l : List (String × PyObj)} {mf : Dict}
    {us : List String} {as : List (String × PyObj)} (h : us ≠ []) :
    (initLoop l mf us as).1 ≠ [] := by
  induction l generalizing us as with
  | nil => exact h
  | cons kv rest ih =>
    simp only [initLoop]
    split_ifs with h1 h2 h3
    · exact ih h
    · exact ih (by simp)
    · exact ih h
    · exact ih h

theorem initLoop_mem_unsets {l : List (String × PyObj)} {mf : Dict}
    {us : List String} {as : List (String × PyObj)} {k : String}
    (h : k ∈ us) : k ∈ (initLoop l mf us as).1 := by
  induction l generalizing us as with
  | nil => exact h
  | cons kv rest ih =>
    simp only [initLoop]
    split_ifs with h1 h2 h3
    · exact ih h
    · exact ih (List.mem_append_left _ h)
    · exact ih h
    · exact ih h

theorem initLoop_collects {l : List (String × PyObj)} {mf : Dict} {k : String}
    (hmem : (k, PyObj.unset) ∈ l) (hc : dictContains mf k = true)
    (us : List String) (as : List (String × PyObj)) :
    k ∈ (initLoop l mf us as).1 := by
  induction l generalizing us as with
  | nil => simp at hmem
  | cons kv rest ih =>
    rcases List.mem_cons.mp hmem with heq | hmem2
    · have hk1 : kv.1 = k := by rw [← heq]
      have hk2 : kv.2 = PyObj.unset := by rw [← heq]
      simp only [initLoop]
      rw [if_neg (by simp [hk1, hc]), if_pos hk2]
      apply initLoop_mem_unsets
      rw [hk1]
      exact List.mem_append_right _ (List.mem_singleton.mpr rfl)
    · simp only [initLoop]
      split_ifs with h1 h2 h3 <;> exact ih hmem2 _ _

theorem initLoop_success {l : List (String × PyObj)} {mf : Dict}
    {us : List String} {as : List (String × PyObj)}
    (h : (initLoop l mf us as).1 = []) :
    (initLoop l mf us as).2 =
      as ++ l.filter (fun kv => dictContains mf kv.1) := by
  induction l generalizing us as with
  | nil => simp [initLoop]
  | cons kv rest ih =>
    simp only [initLoop] at h ⊢
    split_ifs at h ⊢ with h1 h2 h3
    · rw [ih h, List.filter_cons, if_neg (by simp [h1])]
    · exact absurd h (initLoop_ne_nil (by simp))
    · rw [ih h, List.filter_cons,
        if_pos (by simp only [Bool.not_eq_false] at h1; exact h1)]
      simp
    · refine absurd h (initLoop_ne_nil ?_)
      intro hnil
      rw [hnil] at h3
      simp at h3

theorem modelInit_error_char {mf kw : Dict}
    (h : (initLoop (dictMerge mf kw) mf [] []).1 ≠ []) :
    modelInit mf kw =
      Except.error (initLoop (dictMerge mf kw) mf [] []).1 := by
  simp only [modelInit]
  rw [if_neg]
  simp [h]

theorem modelInit_ok_char {mf kw : Dict} {r : InitResult}
    (h : modelInit mf kw = Except.ok r) :
    (initLoop (dictMerge mf kw) mf [] []).1 = [] ∧
    r.assigned =
      (dictMerge mf kw).filter (fun kv => dictContains mf kv.1) ∧
    r.postInitKwargs = dictMerge mf kw := by
  by_cases hemp : (initLoop (dictMerge mf kw) mf [] []).1 = []
  · simp only [modelInit] at h
    rw [if_pos (by simp [hemp])] at h
    injection h with h2
    subst h2
    refine ⟨hemp, ?_, rfl⟩
    simpa using initLoop_success hemp
  · simp only [modelInit] at h
    rw [if_neg (by simp [hemp])] at h
    exact Except.noConfusion h

theorem keysNodup_mem_unique {l : List (String × PyObj)} {k : String}
    {a b : PyObj} (hnd : keysNodup l) (ha : (k, a) ∈ l) (hb : (k, b) ∈ l) :
    a = b := by
  induction l with
  | nil => simp at ha
  | cons p rest ih =>
    unfold keysNodup at hnd
    simp only [List.map_cons, List.nodup_cons] at hnd
    rcases List.mem_cons.mp ha with hea | ha2 <;>
      rcases List.mem_cons.mp hb with heb | hb2
    · rw [← hea] at heb
      exact (Prod.ext_iff.mp heb).2.symm
    · exfalso
      apply hnd.1
      have hp : p.1 = k := by rw [← hea]
      rw [hp]
      exact List.mem_map_of_mem Prod.fst hb2
    · exfalso
      apply hnd.1
      have hp : p.1 = k := by rw [← heb]
      rw [hp]
      exact List.mem_map_of_mem Prod.fst ha2
    · exact ih hnd.2 ha2 hb2

theorem classifyLoop_get_absent {l : List (String × PyObj)} {n : String}
    (h : ∀ p ∈ l, p.1 ≠ n) (d : Dict) (m s : List (String × PyObj)) :
    dictGet (classifyLoop l d m s).1 n = dictGet d n := by
  induction l generalizing d m s with
  | nil => rfl
  | cons kv rest ih =>
    have hrest : ∀ p ∈ rest, p.1 ≠ n :=
      fun q hq => h q (List.mem_cons_of_mem kv hq)
    simp only [classifyLoop]
    split_ifs with h1 h2
    · exact ih hrest _ _ _
    · exact ih hrest _ _ _
    · rw [ih hrest _ _ _, dictGet_insert]
      simp [Ne.symm (h kv (List.mem_cons_self kv rest))]

theorem classifyLoop_get {l : List (String × PyObj)} {n : String} {x : PyObj}
    (hnd : keysNodup l) (hmem : (n, x) ∈ l)
    (hnc : isCallableOrProp x = false)
    (hpub : startsWithUnderscore n = false)
    (d : Dict) (m s : List (String × PyObj)) :
    dictGet (classifyLoop l d m s).1 n = some x := by
  induction l generalizing d m s with
  | nil => simp at hmem
  | cons kv rest ih =>
    unfold keysNodup at hnd
    simp only [List.map_cons, List.nodup_cons] at hnd
    rcases List.mem_cons.mp hmem with heq | hmem2
    · have hk1 : kv.1 = n := by rw [← heq]
      have hk2 : kv.2 = x := by rw [← heq]
      simp only [classifyLoop]
      rw [if_neg (by simp [hk2, hnc]), if_neg (by simp [hk1, hpub])]
      have hrest : ∀ p ∈ rest, p.1 ≠ n := by
        intro q hq hqn
        apply hnd.1
        rw [hk1, ← hqn]
        exact List.mem_map_of_mem Prod.fst hq
      rw [classifyLoop_get_absent hrest _ _ _, hk1, hk2, dictGet_insert]
      simp
    · simp only [classifyLoop]
      split_ifs with h1 h2 <;> exact ih hnd.2 hmem2 _ _ _

theorem classifyLoop_methods {l : List (String × PyObj)}
    {k : String} {w : PyObj} (d : Dict) (m s : List (String × PyObj))
    (h : (k, w) ∈ (classifyLoop l d m s).2.1) :
    (k, w) ∈ m ∨ ((k, w) ∈ l ∧ isCallableOrProp w = true) := by
  induction l generalizing d m s with
  | nil => exact Or.inl h
  | cons kv rest ih =>
    simp only [classifyLoop] at h
    split_ifs at h with h1 h2
    · rcases ih _ _ _ h with hm | ⟨hl, hc⟩
      · rcases List.mem_append.mp hm with hm2 | hm2
        · exact Or.inl hm2
        · have heq : (k, w) = kv := List.mem_singleton.mp hm2
          refine Or.inr ⟨?_, ?_⟩
          · rw [heq]
            exact List.mem_cons_self kv rest
          · have hw : kv.2 = w := by rw [← heq]
            rw [← hw]
            exact h1
      · exact Or.inr ⟨List.mem_cons_of_mem kv hl, hc⟩
    · rcases ih _ _ _ h with hm | ⟨hl, hc⟩
      · exact Or.inl hm
      · exact Or.inr ⟨List.mem_cons_of_mem kv hl, hc⟩
    · rcases ih _ _ _ h with hm | ⟨hl, hc⟩
      · exact Or.inl hm
      · exact Or.inr ⟨List.mem_cons_of_mem kv hl, hc⟩

theorem classifyLoop_secrets {l : List (String × PyObj)}
    {k : String} {w : PyObj} (d : Dict) (m s : List (String × PyObj))
    (h : (k, w) ∈ (classifyLoop l d m s).2.2) :
    (k, w) ∈ s ∨ ((k, w) ∈ l ∧ startsWithUnderscore k = true) := by
  induction l generalizing d m s with
  | nil => exact Or.inl h
  | cons kv rest ih =>
    simp only [classifyLoop] at h
    split_ifs at h with h1 h2
    · rcases ih _ _ _ h with hm | ⟨hl, hc⟩
      · exact Or.inl hm
      · exact Or.inr ⟨List.mem_cons_of_mem kv hl, hc⟩
    · rcases ih _ _ _ h with hm | ⟨hl, hc⟩
      · rcases List.mem_append.mp hm with hm2 | hm2
        · exact Or.inl hm2
        · have heq : (k, w) = kv := List.mem_singleton.mp hm2
          refine Or.inr ⟨?_, ?_⟩
          · rw [heq]
            exact List.mem_cons_self kv rest
          · have hk : kv.1 = k := by rw [← heq]
            rw [← hk]
            exact h2
      · exact Or.inr ⟨List.mem_cons_of_mem kv hl, hc⟩
    · rcases ih _ _ _ h with hm | ⟨hl, hc⟩
      · exact Or.inl hm
      · exact Or.inr ⟨List.mem_cons_of_mem kv hl, hc⟩

theorem annotLoop_fields {l : List String} {k : String} {w : PyObj}
    (f : List (String × PyObj)) (d : Dict)
    (h : (k, w) ∈ (annotLoop l f d).1) : (k, w) ∈ f ∨ k ∈ l := by
  induction l generalizing f d with
  | nil => exact Or.inl h
  | cons a rest ih =>
    simp only [annotLoop] at h
    split_ifs at h with h1
    · rcases ih _ _ h with hf | hl
      · exact Or.inl hf
      · exact Or.inr (List.mem_cons_of_mem a hl)
    · rcases ih _ _ h with hf | hl
      · rcases List.mem_append.mp hf with hf2 | hf2
        · exact Or.inl hf2
        · have heq : (k, w) = (a, PyObj.fieldDesc metaclassName a) :=
            List.mem_singleton.mp hf2
          have hk : k = a := congrArg Prod.fst heq
          rw [hk]
          exact Or.inr (List.mem_cons_self a rest)
      · exact Or.inr (List.mem_cons_of_mem a hl)

theorem annotLoop_get {l : List String} {n : String}
    (h : n ∉ l) (f : List (String × PyObj)) (d : Dict) :
    dictGet (annotLoop l f d).2 n = dictGet d n := by
  induction l generalizing f d with
  | nil => rfl
  | cons a rest ih =>
    have hna : a ≠ n := by
      intro he
      apply h
      rw [← he]
      exact List.mem_cons_self a rest
    have hrest : n ∉ rest := fun hm => h (List.mem_cons_of_mem a hm)
    simp only [annotLoop]
    split_ifs with h1
    · exact ih hrest _ _
    · rw [ih hrest _ _, dictGet_setdefault_of_ne hna]

theorem strJoin3 (a tok b : String) :
    a ++ " " ++ tok ++ " " ++ b = a ++ (" " ++ tok ++ " ") ++ b := by
  rw [strAppendAssoc a " " tok, strAppendAssoc a (" " ++ tok) " "]

theorem except_error_iff_not_ok {ε α : Type} (x : Except ε α) :
    (∃ e, x = Except.error e) ↔ ¬∃ a, x = Except.ok a := by
  cases x <;> simp

theorem fqInit_ok_iff (first second : FQVal) (op : FilterOperation) :
    (∃ q, FilterQuery.init first op second = Except.ok q) ↔
      ((second = FQVal.unset ∧ op = FilterOperation.NOT) ∨
       (second ≠ FQVal.unset ∧ op ≠ FilterOperation.NOT)) := by
  unfold FilterQuery.init
  by_cases hC : second = FQVal.unset ↔ op = FilterOperation.NOT
  · rw [if_neg (not_not_intro hC)]
    constructor
    · intro _
      by_cases hs : second = FQVal.unset
      · exact Or.inl ⟨hs, hC.mp hs⟩
      · exact Or.inr ⟨hs, fun ho => hs (hC.mpr ho)⟩
    · intro _
      exact ⟨_, rfl⟩
  · rw [if_pos hC]
    constructor
    · rintro ⟨q, hq⟩
      exact Except.noConfusion hq
    · intro hR
      exfalso
      apply hC
      rcases hR with ⟨hs, ho⟩ | ⟨hs, ho⟩
      · exact ⟨fun _ => ho, fun _ => hs⟩
      · exact ⟨fun h => absurd h hs, fun h => absurd h ho⟩

theorem fqInit_ok_val {first second : FQVal} {op : FilterOperation} {q : FQVal}
    (h : FilterQuery.init first op second = Except.ok q) :
    q = FQVal.query first op second := by
  unfold FilterQuery.init at h
  by_cases hC : ¬(second = FQVal.unset ↔ op = FilterOperation.NOT)
  · rw [if_pos hC] at h
    exact Except.noConfusion h
  · rw [if_neg hC] at h
    injection h with h2
    exact h2.symm

theorem gInit_ok_iff (first second : GVal) (op : FilterOperation) :
    (∃ q, General.mkFilterQuery first op second = Except.ok q) ↔
      ¬(second = GVal.unset ∧ op ≠ FilterOperation.NOT) := by
  unfold General.mkFilterQuery
  by_cases hC : second = GVal.unset ∧ op ≠ FilterOperation.NOT
  · rw [if_pos hC]
    constructor
    · rintro ⟨q, hq⟩
      exact Except.noConfusion hq
    · intro h
      exact absurd hC h
  · rw [if_neg hC]
    exact ⟨fun _ => hC, fun _ => ⟨_, rfl⟩⟩

theorem gInit_ok_val {first second : GVal} {op : FilterOperation} {q : GVal}
    (h : General.mkFilterQuery first op second = Except.ok q) :
    q = GVal.query first op second := by
  unfold General.mkFilterQuery at h
  by_cases hC : second = GVal.unset ∧ op ≠ FilterOperation.NOT
  · rw [if_pos hC] at h
    exact Except.noConfusion h
  · rw [if_neg hC] at h
    injection h with h2
    exact h2.symm

/-- Claim C1 (amended): for the fields.py FilterQuery, construction
raises the domain error if and only if the second operand is Unset
while the operation is not negation, or the second operand is present
while the operation is negation, and otherwise succeeds storing the
three components unchanged — exactly as the claim states; for the
general.py FilterQuery, construction raises only when the second
operand is Unset and the operation is not negation, so a present second
operand together with negation is accepted and stored unchanged. -/
theorem filterQuery_construction_characterization :
    (∀ (first second : FQVal) (op : FilterOperation),
      ((∃ e, FilterQuery.init first op second = Except.error e) ↔
        ((second = FQVal.unset ∧ op ≠ FilterOperation.NOT) ∨
         (second ≠ FQVal.unset ∧ op = FilterOperation.NOT))) ∧
      (∀ q, FilterQuery.init first op second = Except.ok q →
        q = FQVal.query first op second)) ∧
    (∀ (first second : GVal) (op : FilterOperation),
      ((∃ e, General.mkFilterQuery first op second = Except.error e) ↔
        (second = GVal.unset ∧ op ≠ FilterOperation.NOT)) ∧
      (∀ q, General.mkFilterQuery first op second = Except.ok q →
        q = GVal.query first op second)) := by
  constructor
  · intro first second op
    constructor
    · rw [except_error_iff_not_ok, fqInit_ok_iff]
      constructor
      · intro h
        by_cases hs : second = FQVal.unset
        · refine Or.inl ⟨hs, fun ho => h (Or.inl ⟨hs, ho⟩)⟩
        · refine Or.inr ⟨hs, ?_⟩
          by_contra ho
          exact h (Or.inr ⟨hs, ho⟩)
      · rintro (⟨hs, ho⟩ | ⟨hs, ho⟩) <;> rintro (⟨hs2, ho2⟩ | ⟨hs2, ho2⟩)
        · exact ho ho2
        · exact hs2 hs
        · exact hs hs2
        · exact ho2 ho
    · intro q hq
      exact fqInit_ok_val hq
  · intro first second op
    constructor
    · rw [except_error_iff_not_ok, gInit_ok_iff, not_not]
    · intro q hq
      exact gInit_ok_val hq

/-- Claim C1 counterexample: the general.py FilterQuery accepts a
present (non-Unset) second operand together with the negation
operation and stores it, whereas the claim requires this construction
to raise the domain error. -/
theorem generalFilterQuery_not_with_second_accepted :
    General.mkFilterQuery (GVal.scalar (PyVal.str "a")) FilterOperation.NOT
      (GVal.scalar (PyVal.int 5)) =
    Except.ok (GVal.query (GVal.scalar (PyVal.str "a")) FilterOperation.NOT
      (GVal.scalar (PyVal.int 5))) := by
  decide

theorem filterQuery_construction_characterization_witness :
    (∃ e, FilterQuery.init (FQVal.field "M" "a") FilterOperation.NOT
      (FQVal.scalar (PyVal.int 5)) = Except.error e) ∧
    (∃ e, FilterQuery.init (FQVal.field "M" "a") FilterOperation.EQUALS
      FQVal.unset = Except.error e) ∧
    ¬(∃ e, General.mkFilterQuery (GVal.scalar (PyVal.str "a"))
      FilterOperation.NOT (GVal.scalar (PyVal.int 5)) = Except.error e) := by
  refine ⟨?_, ?_, ?_⟩
  · exact (filterQuery_construction_characterization.1 _ _ _).1.mpr
      (Or.inr ⟨by decide, rfl⟩)
  · exact (filterQuery_construction_characterization.1 _ _ _).1.mpr
      (Or.inl ⟨rfl, by decide⟩)
  · rw [(filterQuery_construction_characterization.2 _ _ _).1]
    decide

theorem sepEqToken : (" " ++ "eq" ++ " " : String) = " eq " := by decide

theorem sepAndToken : (" " ++ "and" ++ " " : String) = " and " := by decide

theorem sepOrToken : (" " ++ "or" ++ " " : String) = " or " := by decide

/-- Claim C3: the fields.py variant renders str(F == v) exactly as the
claim states — field name, a space, the token eq, a space, then the
value quoted when it is a string and bare when it is an integer; the
general.py variant, contradicted by its own unit tests, additionally
passes the field name and the operation token through repr, quoting
both. -/
theorem wire_format_eq_scalar :
    (∀ (c n : String) (v : PyVal),
      ModelField.eq c n (FQVal.scalar v) =
        Except.ok (FQVal.query (FQVal.field c n) FilterOperation.EQUALS
          (FQVal.scalar v))) ∧
    (∀ (c n s : String),
      fqStr (FQVal.query (FQVal.field c n) FilterOperation.EQUALS
          (FQVal.scalar (PyVal.str s))) =
        n ++ " eq " ++ (squote ++ s ++ squote)) ∧
    (∀ (c n : String) (i : Int),
      fqStr (FQVal.query (FQVal.field c n) FilterOperation.EQUALS
          (FQVal.scalar (PyVal.int i))) =
        n ++ " eq " ++ toString i) ∧
    (General.modelFieldEq "a" (GVal.scalar (PyVal.str "b")) =
      Except.ok (GVal.query (GVal.scalar (PyVal.str "a"))
        FilterOperation.EQUALS (GVal.scalar (PyVal.str "b")))) ∧
    gStr (GVal.query (GVal.scalar (PyVal.str "a")) FilterOperation.EQUALS
        (GVal.scalar (PyVal.str "b"))) ≠
      some ("a eq " ++ (squote ++ "b" ++ squote)) := by
  refine ⟨?_, ?_, ?_, by decide, by decide⟩
  · intro c n v
    simp [ModelField.eq, FilterQuery.init]
  · intro c n s
    calc fqStr (FQVal.query (FQVal.field c n) FilterOperation.EQUALS
          (FQVal.scalar (PyVal.str s)))
        = n ++ " " ++ "eq" ++ " " ++ (squote ++ s ++ squote) := rfl
      _ = n ++ (" " ++ "eq" ++ " ") ++ (squote ++ s ++ squote) :=
          strJoin3 n "eq" (squote ++ s ++ squote)
      _ = n ++ " eq " ++ (squote ++ s ++ squote) := by rw [sepEqToken]
  · intro c n i
    calc fqStr (FQVal.query (FQVal.field c n) FilterOperation.EQUALS
          (FQVal.scalar (PyVal.int i)))
        = n ++ " " ++ "eq" ++ " " ++ toString i := rfl
      _ = n ++ (" " ++ "eq" ++ " ") ++ toString i :=
          strJoin3 n "eq" (toString i)
      _ = n ++ " eq " ++ toString i := by rw [sepEqToken]

/-- Claim C4: two nodes compare equal exactly when their wire strings
are equal; two differently associated trees rendering the same wire
string compare equal; and two equality leaves built from descriptors
with the same field name but different owning classes compare equal
while their repr strings differ. -/
theorem filter_query_structural_equality :
    (∀ p q : FQVal, fqEq p q = true ↔ fqStr p = fqStr q) ∧
    (fqEq
        (FQVal.query
          (FQVal.query
            (FQVal.query (FQVal.field "M" "a") FilterOperation.EQUALS
              (FQVal.scalar (PyVal.int 5)))
            FilterOperation.AND
            (FQVal.query (FQVal.field "M" "b") FilterOperation.EQUALS
              (FQVal.scalar (PyVal.int 6))))
          FilterOperation.OR
          (FQVal.query (FQVal.field "M" "c") FilterOperation.EQUALS
            (FQVal.scalar (PyVal.int 7))))
        (FQVal.query
          (FQVal.query (FQVal.field "M" "a") FilterOperation.EQUALS
            (FQVal.scalar (PyVal.int 5)))
          FilterOperation.AND
          (FQVal.query
            (FQVal.query (FQVal.field "M" "b") FilterOperation.EQUALS
              (FQVal.scalar (PyVal.int 6)))
            FilterOperation.OR
            (FQVal.query (FQVal.field "M" "c") FilterOperation.EQUALS
              (FQVal.scalar (PyVal.int 7))))) = true ∧
      (FQVal.query
          (FQVal.query
            (FQVal.query (FQVal.field "M" "a") FilterOperation.EQUALS
              (FQVal.scalar (PyVal.int 5)))
            FilterOperation.AND
            (FQVal.query (FQVal.field "M" "b") FilterOperation.EQUALS
              (FQVal.scalar (PyVal.int 6))))
          FilterOperation.OR
          (FQVal.query (FQVal.field "M" "c") FilterOperation.EQUALS
            (FQVal.scalar (PyVal.int 7)))) ≠
        (FQVal.query
          (FQVal.query (FQVal.field "M" "a") FilterOperation.EQUALS
            (FQVal.scalar (PyVal.int 5)))
          FilterOperation.AND
          (FQVal.query
            (FQVal.query (FQVal.field "M" "b") FilterOperation.EQUALS
              (FQVal.scalar (PyVal.int 6)))
            FilterOperation.OR
            (FQVal.query (FQVal.field "M" "c") FilterOperation.EQUALS
              (FQVal.scalar (PyVal.int 7)))))) ∧
    (fqEq
        (FQVal.query (FQVal.field "A" "n") FilterOperation.EQUALS
          (FQVal.scalar (PyVal.int 5)))
        (FQVal.query (FQVal.field "B" "n") FilterOperation.EQUALS
          (FQVal.scalar (PyVal.int 5))) = true ∧
      fqRepr (FQVal.query (FQVal.field "A" "n") FilterOperation.EQUALS
          (FQVal.scalar (PyVal.int 5))) ≠
        fqRepr (FQVal.query (FQVal.field "B" "n") FilterOperation.EQUALS
          (FQVal.scalar (PyVal.int 5)))) := by
  refine ⟨?_, by decide, by decide⟩
  intro p q
  simp [fqEq]

theorem filter_query_structural_equality_witness :
    fqEq (FQVal.field "A" "n") (FQVal.field "B" "n") = true :=
  (filter_query_structural_equality.1 _ _).mpr (by decide)

/-- Claim C6: for query nodes A and B, str(A and B) is str(A), the
token and, str(B); str(A or B) likewise with or; and str(not A) is
"not " followed by str(A); the combinators store the new node with the
left operand first. -/
theorem filter_query_combinators_wire (f1 s1 f2 s2 : FQVal)
    (o1 o2 : FilterOperation) :
    (FilterQuery.and (FQVal.query f1 o1 s1) (FQVal.query f2 o2 s2) =
      Except.ok (FQVal.query (FQVal.query f1 o1 s1) FilterOperation.AND
        (FQVal.query f2 o2 s2))) ∧
    fqStr (FQVal.query (FQVal.query f1 o1 s1) FilterOperation.AND
        (FQVal.query f2 o2 s2)) =
      fqStr (FQVal.query f1 o1 s1) ++ " and " ++
        fqStr (FQVal.query f2 o2 s2) ∧
    (FilterQuery.or (FQVal.query f1 o1 s1) (FQVal.query f2 o2 s2) =
      Except.ok (FQVal.query (FQVal.query f1 o1 s1) FilterOperation.OR
        (FQVal.query f2 o2 s2))) ∧
    fqStr (FQVal.query (FQVal.query f1 o1 s1) FilterOperation.OR
        (FQVal.query f2 o2 s2)) =
      fqStr (FQVal.query f1 o1 s1) ++ " or " ++
        fqStr (FQVal.query f2 o2 s2) ∧
    (FilterQuery.invert (FQVal.query f1 o1 s1) =
      Except.ok (FQVal.query (FQVal.query f1 o1 s1) FilterOperation.NOT
        FQVal.unset)) ∧
    fqStr (FQVal.query (FQVal.query f1 o1 s1) FilterOperation.NOT
        FQVal.unset) =
      "not " ++ fqStr (FQVal.query f1 o1 s1) := by
  refine ⟨?_, ?_, ?_, ?_, ?_, rfl⟩
  · simp [FilterQuery.and, FilterQuery.init]
  · calc fqStr (FQVal.query (FQVal.query f1 o1 s1) FilterOperation.AND
          (FQVal.query f2 o2 s2))
        = fqStr (FQVal.query f1 o1 s1) ++ " " ++ "and" ++ " " ++
            fqStr (FQVal.query f2 o2 s2) := rfl
      _ = fqStr (FQVal.query f1 o1 s1) ++ (" " ++ "and" ++ " ") ++
            fqStr (FQVal.query f2 o2 s2) := strJoin3 _ "and" _
      _ = fqStr (FQVal.query f1 o1 s1) ++ " and " ++
            fqStr (FQVal.query f2 o2 s2) := by rw [sepAndToken]
  · simp [FilterQuery.or, FilterQuery.init]
  · calc fqStr (FQVal.query (FQVal.query f1 o1 s1) FilterOperation.OR
          (FQVal.query f2 o2 s2))
        = fqStr (FQVal.query f1 o1 s1) ++ " " ++ "or" ++ " " ++
            fqStr (FQVal.query f2 o2 s2) := rfl
      _ = fqStr (FQVal.query f1 o1 s1) ++ (" " ++ "or" ++ " ") ++
            fqStr (FQVal.query f2 o2 s2) := strJoin3 _ "or" _
      _ = fqStr (FQVal.query f1 o1 s1) ++ " or " ++
            fqStr (FQVal.query f2 o2 s2) := by rw [sepOrToken]
  · simp [FilterQuery.invert, FilterQuery.init]

/-- Claim C7: a query node hashes to the hash of its first operand
alone, two nodes whose first operands hash equal hash equal themselves,
and a concrete pair of unequal nodes sharing a first operand collides. -/
theorem filter_query_hash_first_only :
    (∀ (first second : FQVal) (op : FilterOperation),
      fqHash (FQVal.query first op second) = fqHash first) ∧
    (∀ (f1 f2 s1 s2 : FQVal) (o1 o2 : FilterOperation),
      fqHash f1 = fqHash f2 →
      fqHash (FQVal.query f1 o1 s1) = fqHash (FQVal.query f2 o2 s2)) ∧
    (fqEq
        (FQVal.query (FQVal.field "M" "a") FilterOperation.EQUALS
          (FQVal.scalar (PyVal.int 5)))
        (FQVal.query (FQVal.field "M" "a") FilterOperation.NOT_EQUALS
          (FQVal.scalar (PyVal.int 6))) = false ∧
      fqHash (FQVal.query (FQVal.field "M" "a") FilterOperation.EQUALS
          (FQVal.scalar (PyVal.int 5))) =
        fqHash (FQVal.query (FQVal.field "M" "a") FilterOperation.NOT_EQUALS
          (FQVal.scalar (PyVal.int 6)))) := by
  refine ⟨fun _ _ _ => rfl, ?_, by decide, rfl⟩
  intro f1 f2 s1 s2 o1 o2 h
  simpa [fqHash] using h

theorem filter_query_hash_first_only_witness :
    fqHash (FQVal.query (FQVal.field "W" "w") FilterOperation.EQUALS
        (FQVal.scalar (PyVal.int 1))) =
      fqHash (FQVal.query (FQVal.field "W" "w") FilterOperation.OR
        (FQVal.scalar (PyVal.int 2))) :=
  filter_query_hash_first_only.2.1 _ _ _ _ _ _ rfl

/-- Claim C2: whenever some declared field has the Unset default and no
keyword argument supplies it, _init fails with the domain error whose
payload (interpolated into the exception message by missingMsg) lists
every such missing field, and no successful result — hence no
__post_init__ call — is produced. -/
theorem model_init_missing_fields (mf kw : Dict) (n : String)
    (h1 : dictGet mf n = some PyObj.unset) (h2 : dictGet kw n = none) :
    ∃ u, modelInit mf kw = Except.error u ∧ n ∈ u ∧
      (∀ m, dictGet mf m = some PyObj.unset → dictGet kw m = none →
        m ∈ u) ∧
      (∀ r, modelInit mf kw ≠ Except.ok r) := by
  have key : ∀ m, dictGet mf m = some PyObj.unset → dictGet kw m = none →
      m ∈ (initLoop (dictMerge mf kw) mf [] []).1 := by
    intro m hm1 hm2
    have habs : ∀ p ∈ kw, p.1 ≠ m := dictGet_eq_none_iff.mp hm2
    have hmerged : dictGet (dictMerge mf kw) m = some PyObj.unset := by
      rw [dictGet_merge_of_absent habs, hm1]
    exact initLoop_collects (dictGet_mem hmerged) (dictContains_of_get hm1)
      [] []
  have hne : (initLoop (dictMerge mf kw) mf [] []).1 ≠ [] := by
    intro hnil
    have hn := key n h1 h2
    rw [hnil] at hn
    simp at hn
  refine ⟨_, modelInit_error_char hne, key n h1 h2, key, ?_⟩
  intro r hr
  rw [modelInit_error_char hne] at hr
  exact Except.noConfusion hr

theorem model_init_missing_fields_witness :
    ∃ u, modelInit
        [("a", PyObj.unset), ("b", PyObj.scalar (PyVal.int 1)),
          ("c", PyObj.unset)] [] = Except.error u ∧
      "a" ∈ u ∧ "c" ∈ u := by
  obtain ⟨u, hu, hn, hall, hok⟩ := model_init_missing_fields
    [("a", PyObj.unset), ("b", PyObj.scalar (PyVal.int 1)),
      ("c", PyObj.unset)] [] "a" (by decide) rfl
  exact ⟨u, hu, hn, hall "c" (by decide) rfl⟩

/-- Claim C8: on a successful construction every declared field that
was supplied carries the supplied value, every defaulted field that was
not supplied carries its default, and a keyword argument whose key is
not a declared field is never assigned onto the instance. -/
theorem model_init_success_assignment (mf kw : Dict) (r : InitResult)
    (hkw : keysNodup kw) (hok : modelInit mf kw = Except.ok r) :
    (∀ n v, dictContains mf n = true → dictGet kw n = some v →
      dictGet r.assigned n = some v) ∧
    (∀ n v, dictGet mf n = some v → v ≠ PyObj.unset →
      dictGet kw n = none → dictGet r.assigned n = some v) ∧
    (∀ n, dictContains mf n = false → dictGet r.assigned n = none) := by
  obtain ⟨hnil, hass, hpk⟩ := modelInit_ok_char hok
  refine ⟨?_, ?_, ?_⟩
  · intro n v hc hg
    rw [hass, dictGet_filter_of_true hc, dictGet_merge_of_get hkw hg]
  · intro n v hg hne hnone
    rw [hass, dictGet_filter_of_true (dictContains_of_get hg),
      dictGet_merge_of_absent (dictGet_eq_none_iff.mp hnone), hg]
  · intro n hc
    rw [hass, dictGet_filter_of_false hc]

theorem model_init_success_assignment_witness :
    ∃ r : InitResult,
      modelInit
          [("a", PyObj.unset), ("b", PyObj.scalar (PyVal.str "x")),
            ("c", PyObj.scalar (PyVal.int 1))]
          [("a", PyObj.scalar (PyVal.int 5)),
            ("z", PyObj.scalar (PyVal.int 9))] = Except.ok r ∧
      dictGet r.assigned "a" = some (PyObj.scalar (PyVal.int 5)) ∧
      dictGet r.assigned "b" = some (PyObj.scalar (PyVal.str "x")) ∧
      dictGet r.assigned "z" = none := by
  have h := model_init_success_assignment
    [("a", PyObj.unset), ("b", PyObj.scalar (PyVal.str "x")),
      ("c", PyObj.scalar (PyVal.int 1))]
    [("a", PyObj.scalar (PyVal.int 5)), ("z", PyObj.scalar (PyVal.int 9))]
    ⟨[("a", PyObj.scalar (PyVal.int 5)),
        ("b", PyObj.scalar (PyVal.str "x")),
        ("c", PyObj.scalar (PyVal.int 1))],
      [("a", PyObj.scalar (PyVal.int 5)),
        ("b", PyObj.scalar (PyVal.str "x")),
        ("c", PyObj.scalar (PyVal.int 1)),
        ("z", PyObj.scalar (PyVal.int 9))]⟩
    (by decide) (by decide)
  refine ⟨⟨[("a", PyObj.scalar (PyVal.int 5)),
      ("b", PyObj.scalar (PyVal.str "x")),
      ("c", PyObj.scalar (PyVal.int 1))],
    [("a", PyObj.scalar (PyVal.int 5)),
      ("b", PyObj.scalar (PyVal.str "x")),
      ("c", PyObj.scalar (PyVal.int 1)),
      ("z", PyObj.scalar (PyVal.int 9))]⟩, by decide, ?_, ?_, ?_⟩
  · exact h.1 "a" _ (by decide) (by decide)
  · exact h.2.1 "b" _ (by decide) (by decide) (by decide)
  · exact h.2.2 "z" (by decide)

/-- Claim C9: on a successful construction __post_init__ receives
exactly the merge of the supplied keyword arguments over the default
mapping, so every supplied key — declared or not, underscore-prefixed
or not — is present there with its supplied value, and unsupplied
defaults are present with their default values. -/
theorem model_init_postinit_kwargs (mf kw : Dict) (r : InitResult)
    (hkw : keysNodup kw) (hok : modelInit mf kw = Except.ok r) :
    r.postInitKwargs = dictMerge mf kw ∧
    (∀ k v, dictGet kw k = some v →
      dictGet r.postInitKwargs k = some v) ∧
    (∀ k v, dictGet mf k = some v → dictGet kw k = none →
      dictGet r.postInitKwargs k = some v) := by
  obtain ⟨hnil, hass, hpk⟩ := modelInit_ok_char hok
  refine ⟨hpk, ?_, ?_⟩
  · intro k v hg
    rw [hpk, dictGet_merge_of_get hkw hg]
  · intro k v hg hnone
    rw [hpk, dictGet_merge_of_absent (dictGet_eq_none_iff.mp hnone), hg]

theorem model_init_postinit_kwargs_witness :
    ∃ r : InitResult,
      modelInit [("a", PyObj.unset)]
          [("a", PyObj.scalar (PyVal.int 1)),
            ("_b", PyObj.scalar (PyVal.int 2)),
            ("f", PyObj.scalar (PyVal.int 3))] = Except.ok r ∧
      dictGet r.postInitKwargs "_b" = some (PyObj.scalar (PyVal.int 2)) ∧
      dictGet r.postInitKwargs "f" = some (PyObj.scalar (PyVal.int 3)) := by
  have h := model_init_postinit_kwargs [("a", PyObj.unset)]
    [("a", PyObj.scalar (PyVal.int 1)), ("_b", PyObj.scalar (PyVal.int 2)),
      ("f", PyObj.scalar (PyVal.int 3))]
    ⟨[("a", PyObj.scalar (PyVal.int 1))],
      [("a", PyObj.scalar (PyVal.int 1)), ("_b", PyObj.scalar (PyVal.int 2)),
        ("f", PyObj.scalar (PyVal.int 3))]⟩
    (by decide) (by decide)
  refine ⟨⟨[("a", PyObj.scalar (PyVal.int 1))],
    [("a", PyObj.scalar (PyVal.int 1)), ("_b", PyObj.scalar (PyVal.int 2)),
      ("f", PyObj.scalar (PyVal.int 3))]⟩, by decide, ?_, ?_⟩
  · exact h.2.1 "_b" _ (by decide)
  · exact h.2.1 "f" _ (by decide)

/-- Claim C10: a public class-body attribute holding a plain value that
is neither callable nor a property and has no annotation entry is
dropped from the class __dict__ (so it becomes no Field Descriptor),
yet lands in the _model_fields default mapping, and is therefore
assigned onto every successfully constructed instance under that name
whenever the constructor call does not override it. -/
theorem plain_class_attribute_becomes_default (body : ClassBody)
    (n : String) (v : PyVal)
    (hnd : keysNodup body.attrs)
    (hmem : (n, PyObj.scalar v) ∈ body.attrs)
    (hpub : startsWithUnderscore n = false)
    (hann : n ∉ body.annots) :
    dictGet (buildIncusModel body).classDict n = none ∧
    dictGet (buildIncusModel body).modelFields n = some (PyObj.scalar v) ∧
    (∀ kw r,
      modelInit (buildIncusModel body).modelFields kw = Except.ok r →
      dictGet kw n = none →
      dictGet r.assigned n = some (PyObj.scalar v)) := by
  have hmf : dictGet (buildIncusModel body).modelFields n =
      some (PyObj.scalar v) := by
    simp only [buildIncusModel]
    rw [annotLoop_get hann, classifyLoop_get hnd hmem rfl hpub]
  refine ⟨?_, hmf, ?_⟩
  · simp only [buildIncusModel, dictOfList]
    rw [dictGet_merge_of_absent ?habs []]
    · rfl
    case habs =>
      intro p hp hpn
      rcases List.mem_append.mp hp with hp2 | hpf
      · rcases List.mem_append.mp hp2 with hps | hpm
        · obtain ⟨a, b⟩ := p
          rcases classifyLoop_secrets _ _ _ hps with hin | ⟨hl, hu⟩
          · simp at hin
          · simp only at hpn
            rw [hpn] at hu
            rw [hu] at hpub
            exact Bool.noConfusion hpub
        · obtain ⟨a, b⟩ := p
          rcases classifyLoop_methods _ _ _ hpm with hin | ⟨hl, hc⟩
          · simp at hin
          · simp only at hpn
            rw [hpn] at hl
            have hb : b = PyObj.scalar v := keysNodup_mem_unique hnd hl hmem
            rw [hb] at hc
            exact Bool.noConfusion hc
      · obtain ⟨a, b⟩ := p
        rcases annotLoop_fields _ _ hpf with hin | hl
        · simp at hin
        · simp only at hpn
          rw [hpn] at hl
          exact hann hl
  · intro kw r hok hkwn
    obtain ⟨hnil, hass, hpk⟩ := modelInit_ok_char hok
    rw [hass, dictGet_filter_of_true (dictContains_of_get hmf),
      dictGet_merge_of_absent (dictGet_eq_none_iff.mp hkwn), hmf]

theorem plain_class_attribute_becomes_default_witness :
    dictGet (buildIncusModel
        ⟨"W", [("cfg", PyObj.scalar (PyVal.str "v")),
          ("m", PyObj.callableObj "m")], ["a"]⟩).classDict "cfg" = none ∧
    dictGet (buildIncusModel
        ⟨"W", [("cfg", PyObj.scalar (PyVal.str "v")),
          ("m", PyObj.callableObj "m")], ["a"]⟩).modelFields "cfg" =
      some (PyObj.scalar (PyVal.str "v")) ∧
    dictGet (InitResult.assigned
        ⟨[("cfg", PyObj.scalar (PyVal.str "v")),
          ("a", PyObj.scalar (PyVal.int 1))],
          [("cfg", PyObj.scalar (PyVal.str "v")),
            ("a", PyObj.scalar (PyVal.int 1))]⟩) "cfg" =
      some (PyObj.scalar (PyVal.str "v")) := by
  have h := plain_class_attribute_becomes_default
    ⟨"W", [("cfg", PyObj.scalar (PyVal.str "v")),
      ("m", PyObj.callableObj "m")], ["a"]⟩ "cfg" (PyVal.str "v")
    (by decide) (by decide) (by decide) (by decide)
  exact ⟨h.1, h.2.1,
    h.2.2 [("a", PyObj.scalar (PyVal.int 1))]
      ⟨[("cfg", PyObj.scalar (PyVal.str "v")),
        ("a", PyObj.scalar (PyVal.int 1))],
        [("cfg", PyObj.scalar (PyVal.str "v")),
          ("a", PyObj.scalar (PyVal.int 1))]⟩ (by decide) (by decide)⟩

/-- Claim C5: building the test-suite model class TestClass yields a
Field Descriptor for its annotated public field a, but the descriptor
is bound to the metaclass — BaseIncusMeta.__new__ passes cls, which is
the metaclass itself, as the ModelField owning class — so its repr is
"BaseIncusMeta.a" and not "TestClass.a" as the claim requires. -/
theorem model_field_bound_to_metaclass :
    dictGet (buildIncusModel
        ⟨"TestClass",
          [("b", PyObj.scalar (PyVal.str "x1")),
            ("_d", PyObj.scalar (PyVal.str "x2")),
            ("e", PyObj.callableObj "e")],
          ["a", "b", "_c", "_d"]⟩).classDict "a" =
      some (PyObj.fieldDesc metaclassName "a") ∧
    objRepr (PyObj.fieldDesc metaclassName "a") = "BaseIncusMeta.a" ∧
    "BaseIncusMeta.a" ≠ "TestClass" ++ "." ++ "a" := by
  refine ⟨by decide, by decide, by decide⟩
